import Mathlib

/-!
Shallow embedding of the klaytn governance-parameter and staking-weight subsystem
(package `governance`, file modelled from `src/unnamed/part_000`, and package `reward`,
file `src/reward/stakingInfo.go`), together with theorems checking the natural-language
specification against that code.

Modelling conventions:
* Go `uint64` values are `Nat`; where Go arithmetic can wrap, operations are taken
  modulo `2 ^ 64` explicitly (`u64add`, `u64sub`, `u64mul`).
* Go `float64` is modelled as `ℚ`; `math.Round` is `round` (half away from zero agrees
  with Mathlib's `round` on the nonnegative values arising here).
* Go maps (`map[string]interface{}`, `map[string]VoteStatus`) are association lists with
  update-replaces semantics; iteration order of a Go map is nondeterministic, the list
  order is one deterministic refinement of it, and properties about "never emitted"
  are proved for every entry so they hold under any iteration order.
* Mutexes, logging, RLP/JSON codecs, the database and the chain state are external
  collaborators; fallible external reads appear as explicit function arguments.
-/

namespace Klaytn

/-! ## Epoch-boundary arithmetic (`CalcGovernanceInfoBlock`, part_000 lines 659-665) -/

/-- Embeds `CalcGovernanceInfoBlock(num, epoch uint64) uint64` from the source:
`governanceInfoBlock := num - (num % epoch); if governanceInfoBlock >= epoch
{ governanceInfoBlock -= epoch }; return governanceInfoBlock`.
All quantities fit in `uint64` (subtractions never go below zero), so plain `Nat`
arithmetic is exact. -/
def CalcGovernanceInfoBlock (num epoch : Nat) : Nat :=
  let governanceInfoBlock := num - num % epoch
  if governanceInfoBlock ≥ epoch then governanceInfoBlock - epoch
  else governanceInfoBlock

/-- Restatement of the spec's formula for `CalcGovernanceInfoBlock` in the spec's own
words: let `f = n − (n mod epoch)`; if `f ≥ epoch` then `f −= epoch`; return `f`. -/
def calcGovernanceInfoBlockSpecFormula (n epoch : Nat) : Nat :=
  let f := n - n % epoch
  if f ≥ epoch then f - epoch else f

/-! ## Gini coefficient (`CalcGiniCoefficient`, stakingInfo.go lines 143-160) -/

/-- Modulus of Go `uint64` arithmetic. -/
def U64 : Nat := 18446744073709551616

/-- Go `uint64` addition (wraps modulo `2 ^ 64`). -/
def u64add (a b : Nat) : Nat := (a + b) % U64

/-- Go `uint64` subtraction (wraps modulo `2 ^ 64`); both arguments are reduced
so the `Nat` subtraction inside never truncates. -/
def u64sub (a b : Nat) : Nat := (a % U64 + (U64 - b % U64)) % U64

/-- Go `uint64` multiplication (wraps modulo `2 ^ 64`). -/
def u64mul (a b : Nat) : Nat := (a * b) % U64

/-- Insert a value into an ascending list, keeping it ascending. -/
def insertSorted (x : Nat) : List Nat → List Nat
  | [] => [x]
  | y :: ys => if x ≤ y then x :: y :: ys else y :: insertSorted x ys

/-- Ascending sort. Models `sort.Sort(stakingAmount)` with `uint64Slice.Less i j = p[i] < p[j]`
(stakingInfo.go lines 137-144): Go's sort is unstable, but on `uint64` values every correct
ascending sort produces the same list, so insertion sort is an exact model. -/
def sortAsc (l : List Nat) : List Nat := l.foldr insertSorted []

/-- Embeds the accumulation loop of `CalcGiniCoefficient`:
`for i, x := range stakingAmount { temp := x*uint64(i) - subSum;
sumOfAbsoluteDifferences = sumOfAbsoluteDifferences + temp; subSum = subSum + x }`,
with all operations in `uint64` arithmetic. -/
def giniLoop : List Nat → Nat → Nat → Nat → Nat × Nat
  | [], _, sumOfAbsoluteDifferences, subSum => (sumOfAbsoluteDifferences, subSum)
  | x :: rest, i, sumOfAbsoluteDifferences, subSum =>
      giniLoop rest (i + 1) (u64add sumOfAbsoluteDifferences (u64sub (u64mul x i) subSum))
        (u64add subSum x)

/-- Embeds `CalcGiniCoefficient(stakingAmount uint64Slice) float64` from the source:
sort ascending, run the accumulation loop, then
`result := float64(sum)/float64(subSum)/float64(len); result = math.Round(result*100)/100`.
Go `float64` is modelled as `ℚ` (exact for the claim's inputs); Go's division of zero by
zero yields NaN where `ℚ` division yields 0 — no claim touches that case. -/
def CalcGiniCoefficient (stakingAmount : List Nat) : ℚ :=
  let sorted := sortAsc stakingAmount
  let scanned := giniLoop sorted 0 0 0
  let result : ℚ := (scanned.1 : ℚ) / (scanned.2 : ℚ) / (stakingAmount.length : ℚ)
  (round (result * 100) : ℚ) / 100

/-- Restatement of the claim's description of the Gini computation in the spec's own words:
sort ascending; scanning in sorted order with index i, accumulate
`sumAbsDiff += amount[i]·i − runningSum` and `runningSum += amount[i]`; return
`sumAbsDiff / runningSum / n` rounded to 2 decimal places (the accumulator operations
being the code's `uint64` operations). -/
def giniSpecDescription (amounts : List Nat) : ℚ :=
  let sorted := sortAsc amounts
  let scanned := (sorted.enum).foldl
    (fun acc p => (u64add acc.1 (u64sub (u64mul p.2 p.1) acc.2), u64add acc.2 p.2)) (0, 0)
  (round ((scanned.1 : ℚ) / (scanned.2 : ℚ) / (amounts.length : ℚ) * 100) : ℚ) / 100

/-! ## Governance value types and the parameter registry -/

/-- Modelled from the spec: the reflected Go types that governance values can carry.
`reflect.Type` itself is external to src/; per §3/§9 the closed set of semantic types is
{string, unsigned 64-bit integer, boolean, address, big-integer-as-decimal-string}
(big integers travel as strings), and `float64` arises from generic JSON decoding (§4.3). -/
inductive GoType where
  | tString
  | tUint64
  | tBool
  | tAddress
  | tFloat64
deriving DecidableEq

/-- Modelled from the spec: `common.Address` (package common, not in src/), a 20-byte
account address. The hex parsing done by `common.HexToAddress` is external; the model
keeps the producing string, which is enough for the equality comparisons the claims use. -/
structure Address where
  hex : String
deriving DecidableEq

/-- Modelled from the spec: `common.HexToAddress` (package common, not in src/),
abstracted as tagging the string. -/
def hexToAddress (s : String) : Address := ⟨s⟩

/-- A dynamically typed governance value (`interface{}` restricted to the value types
that occur in this subsystem). `vFloat` models a JSON-decoded `float64` carrying a
nonnegative integral value, as produced by unmarshalling a `uint64`. -/
inductive GoValue where
  | vString (s : String)
  | vUint64 (n : Nat)
  | vBool (b : Bool)
  | vAddress (a : Address)
  | vFloat (n : Nat)
deriving DecidableEq

/-- The dynamic type of a value (`reflect.TypeOf`). -/
def typeOf : GoValue → GoType
  | .vString _ => .tString
  | .vUint64 _ => .tUint64
  | .vBool _ => .tBool
  | .vAddress _ => .tAddress
  | .vFloat _ => .tFloat64

namespace params

/-- Modelled from the spec: the governance key-id constant `params.GovernanceMode`
(package params, not in src/). The ids are iota-assigned integers; only their
distinctness matters, plus the fact that Go's zero-valued map lookup makes an unknown
key read as id 0 — the first constant. -/
def GovernanceMode : Nat := 0

/-- Modelled from the spec: `params.GoverningNode`. -/
def GoverningNode : Nat := 1

/-- Modelled from the spec: `params.Epoch`. -/
def Epoch : Nat := 2

/-- Modelled from the spec: `params.CliqueEpoch`. -/
def CliqueEpoch : Nat := 3

/-- Modelled from the spec: `params.Policy`. -/
def Policy : Nat := 4

/-- Modelled from the spec: `params.CommitteeSize`. -/
def CommitteeSize : Nat := 5

/-- Modelled from the spec: `params.UnitPrice`. -/
def UnitPrice : Nat := 6

/-- Modelled from the spec: `params.MintingAmount`. -/
def MintingAmount : Nat := 7

/-- Modelled from the spec: `params.Ratio`. -/
def Ratio : Nat := 8

/-- Modelled from the spec: `params.UseGiniCoeff`. -/
def UseGiniCoeff : Nat := 9

/-- Modelled from the spec: `params.DeferredTxFee`. -/
def DeferredTxFee : Nat := 10

/-- Modelled from the spec: `params.MinimumStake`. -/
def MinimumStake : Nat := 11

/-- Modelled from the spec: `params.StakeUpdateInterval`. -/
def StakeUpdateInterval : Nat := 12

/-- Modelled from the spec: `params.ProposerRefreshInterval`. -/
def ProposerRefreshInterval : Nat := 13

/-- Modelled from the spec: `params.AddValidator`. -/
def AddValidator : Nat := 14

/-- Modelled from the spec: `params.RemoveValidator`. -/
def RemoveValidator : Nat := 15

/-- Modelled from the spec: `params.ConstTxGasHumanReadable`. -/
def ConstTxGasHumanReadable : Nat := 16

/-- Modelled from the spec: `params.KLAY`, the native-unit divisor (package params,
not in src/): one KLAY is `10 ^ 18` of the base denomination. -/
def KLAY : Nat := 1000000000000000000

/-- Modelled from the spec: `params.GovernanceIdxCacheLimit` (package params, not in
src/), the cap on the snapshot index length (§3: bounded-length sequence). The exact
value is immaterial to the claims; it only needs to be positive. -/
def GovernanceIdxCacheLimit : Nat := 1000

/-- Modelled from the spec: `params.GovernanceCachePrefix` (package params, not in
src/); the exact string is immaterial to the claims. -/
def GovernanceCachePfx : String := "governance"

end params

/-- Embeds `GovernanceKeyMap` (part_000 lines 48-65): canonical key name → key id. -/
def GovernanceKeyMap : List (String × Nat) := [
  ("governance.governancemode", params.GovernanceMode),
  ("governance.governingnode", params.GoverningNode),
  ("istanbul.epoch", params.Epoch),
  ("istanbul.policy", params.Policy),
  ("istanbul.committeesize", params.CommitteeSize),
  ("governance.unitprice", params.UnitPrice),
  ("reward.mintingamount", params.MintingAmount),
  ("reward.ratio", params.Ratio),
  ("reward.useginicoeff", params.UseGiniCoeff),
  ("reward.deferredtxfee", params.DeferredTxFee),
  ("reward.minimumstake", params.MinimumStake),
  ("reward.stakingupdateinterval", params.StakeUpdateInterval),
  ("reward.proposerupdateinterval", params.ProposerRefreshInterval),
  ("governance.addvalidator", params.AddValidator),
  ("governance.removevalidator", params.RemoveValidator),
  ("param.txgashumanreadable", params.ConstTxGasHumanReadable)]

/-- Lookup in `GovernanceKeyMap`; `none` models a key absent from the Go map. -/
def lookupGovernanceKey (k : String) : Option Nat :=
  (GovernanceKeyMap.find? (fun p => p.1 == k)).map (·.2)

/-- Embeds `GovernanceKeyMapReverse` (part_000 lines 73-91): key id → canonical name.
It has one entry, `clique.epoch`, with no counterpart in `GovernanceKeyMap`. -/
def GovernanceKeyMapReverse : List (Nat × String) := [
  (params.GovernanceMode, "governance.governancemode"),
  (params.GoverningNode, "governance.governingnode"),
  (params.Epoch, "istanbul.epoch"),
  (params.CliqueEpoch, "clique.epoch"),
  (params.Policy, "istanbul.policy"),
  (params.CommitteeSize, "istanbul.committeesize"),
  (params.UnitPrice, "governance.unitprice"),
  (params.MintingAmount, "reward.mintingamount"),
  (params.Ratio, "reward.ratio"),
  (params.UseGiniCoeff, "reward.useginicoeff"),
  (params.DeferredTxFee, "reward.deferredtxfee"),
  (params.MinimumStake, "reward.minimumstake"),
  (params.StakeUpdateInterval, "reward.stakingupdateinterval"),
  (params.ProposerRefreshInterval, "reward.proposerupdateinterval"),
  (params.AddValidator, "governance.addvalidator"),
  (params.RemoveValidator, "governance.removevalidator"),
  (params.ConstTxGasHumanReadable, "param.txgashumanreadable")]

/-- Lookup in `GovernanceKeyMapReverse`. -/
def lookupGovernanceKeyReverse (id : Nat) : Option String :=
  (GovernanceKeyMapReverse.find? (fun p => p.1 == id)).map (·.2)

/-- Modelled from the spec: the required-type table `GovernanceItems[id].t` — the table
itself lives outside src/ (only `SetValue` and the vote-coercion code reference it).
Per §6 the registry has exactly the sixteen keys of `GovernanceKeyMap`, each bound to one
semantic type; the per-key types follow the coercions in `ParseVoteValue` and
`updateChangeSet` (part_000 lines 428-489): string for mode/minting/minimum-stake/ratio,
address for governing-node/add/remove-validator, bool for gini/deferred-fee, uint64 for
the rest. -/
def GovernanceItems : List (Nat × GoType) := [
  (params.GovernanceMode, .tString),
  (params.GoverningNode, .tAddress),
  (params.Epoch, .tUint64),
  (params.Policy, .tUint64),
  (params.CommitteeSize, .tUint64),
  (params.UnitPrice, .tUint64),
  (params.MintingAmount, .tString),
  (params.Ratio, .tString),
  (params.UseGiniCoeff, .tBool),
  (params.DeferredTxFee, .tBool),
  (params.MinimumStake, .tString),
  (params.StakeUpdateInterval, .tUint64),
  (params.ProposerRefreshInterval, .tUint64),
  (params.AddValidator, .tAddress),
  (params.RemoveValidator, .tAddress),
  (params.ConstTxGasHumanReadable, .tUint64)]

/-- Required type of a key id (`GovernanceItems[id].t`); `none` models the zero-valued
`check` struct whose `t` is the nil type, which can equal no value's dynamic type. -/
def governanceItemType (id : Nat) : Option GoType :=
  (GovernanceItems.find? (fun p => p.1 == id)).map (·.2)

/-! ## Association-list model of Go string-keyed maps -/

/-- Map read, `v, ok := m[k]`. -/
def lookupA {β : Type} (m : List (String × β)) (k : String) : Option β :=
  (m.find? (fun p => p.1 == k)).map (·.2)

/-- Map write, `m[k] = v`: replaces any existing binding of `k`. -/
def setA {β : Type} (m : List (String × β)) (k : String) (v : β) : List (String × β) :=
  (k, v) :: m.filter (fun p => p.1 != k)

/-- Map delete, `delete(m, k)`. -/
def eraseA {β : Type} (m : List (String × β)) (k : String) : List (String × β) :=
  m.filter (fun p => p.1 != k)

/-- Map size, `len(m)`: the number of distinct keys (a Go map binds each key once). -/
def sizeA {β : Type} (m : List (String × β)) : Nat :=
  (m.map Prod.fst).dedup.length

/-! ## GovernanceSet (part_000 lines 114-118 and 244-325) -/

/-- The `items` field of `GovernanceSet`; the `sync.RWMutex` is dropped in this
sequential model. -/
abbrev GovernanceSet := List (String × GoValue)

/-- The Go error values of part_000 lines 38-45. -/
inductive GovError where
  | ErrValueTypeMismatch
  | ErrDecodeGovChange
  | ErrUnmarshalGovChange
  | ErrVoteValueMismatch
  | ErrNotInitialized
  | ErrItemNotFound
  | ErrItemNil
deriving DecidableEq

/-- Embeds `GovernanceSet.Clear`: `gs.items = make(map[string]interface{})`. -/
def GovernanceSet.Clear (_ : GovernanceSet) : GovernanceSet := []

/-- Embeds `GovernanceSet.SetValue(itemType int, value interface{}) error`:
`key := GovernanceKeyMapReverse[itemType]` (empty string if absent, Go's zero value);
`if GovernanceItems[itemType].t != reflect.TypeOf(value) { return ErrValueTypeMismatch }`;
`gs.items[key] = value`. The Go method mutates the receiver and returns an error; the
model returns the new set paired with the optional error, the set unchanged on error. -/
def GovernanceSet.SetValue (gs : GovernanceSet) (itemType : Nat) (value : GoValue) :
    GovernanceSet × Option GovError :=
  let key := (lookupGovernanceKeyReverse itemType).getD ""
  if governanceItemType itemType = some (typeOf value) then (setA gs key value, none)
  else (gs, some GovError.ErrValueTypeMismatch)

/-- Embeds `GovernanceSet.GetValue(key int) (interface{}, bool)`: reverse-map the id
to its canonical name, then read the map; `none` models the `(nil, false)` returns. -/
def GovernanceSet.GetValue (gs : GovernanceSet) (key : Nat) : Option GoValue :=
  match lookupGovernanceKeyReverse key with
  | none => none
  | some sKey => lookupA gs sKey

/-- Embeds `GovernanceSet.RemoveItem(key string)`: `delete(gs.items, key)`. -/
def GovernanceSet.RemoveItem (gs : GovernanceSet) (key : String) : GovernanceSet :=
  eraseA gs key

/-- Embeds `GovernanceSet.Size() int`: `len(gs.items)`. -/
def GovernanceSet.Size (gs : GovernanceSet) : Nat := sizeA gs

/-- Embeds `GovernanceSet.Import(src map[string]interface{})`: discard the old items and
copy every binding of `src` into a fresh map. -/
def GovernanceSet.Import (_ : GovernanceSet) (src : GovernanceSet) : GovernanceSet :=
  src.foldl (fun acc p => setA acc p.1 p.2) []

/-- Embeds `GovernanceSet.Items() map[string]interface{}`: a copy of the items map —
the identity in this pure model. -/
def GovernanceSet.Items (gs : GovernanceSet) : GovernanceSet := gs

/-- Embeds `GovernanceSet.Merge(change map[string]interface{})`:
`for k, v := range change { gs.items[k] = v }`. -/
def GovernanceSet.Merge (gs : GovernanceSet) (change : GovernanceSet) : GovernanceSet :=
  change.foldl (fun acc p => setA acc p.1 p.2) gs

/-- An entry is well-typed for the registry: its key is a registry key and its value's
dynamic type is the registry's required type for that key. -/
def WellTypedEntry (p : String × GoValue) : Prop :=
  (lookupGovernanceKey p.1).bind governanceItemType = some (typeOf p.2)

/-- Every stored entry of the set is well-typed for the registry (the claimed
`GovernanceSet` invariant). -/
def WellTyped (gs : GovernanceSet) : Prop := ∀ p ∈ gs, WellTypedEntry p

/-- Sets reachable from the empty set through the write operations exactly as the claim
lists them: `SetValue`, `Merge`, `Import`, `Clear`, `RemoveItem`, with no restriction on
the maps handed to `Merge` and `Import`. -/
inductive GovReachableAny : GovernanceSet → Prop where
  | empty : GovReachableAny []
  | setValue (gs : GovernanceSet) (id : Nat) (v : GoValue) :
      GovReachableAny gs → GovReachableAny (GovernanceSet.SetValue gs id v).1
  | clear (gs : GovernanceSet) :
      GovReachableAny gs → GovReachableAny (GovernanceSet.Clear gs)
  | removeItem (gs : GovernanceSet) (k : String) :
      GovReachableAny gs → GovReachableAny (GovernanceSet.RemoveItem gs k)
  | merge (gs change : GovernanceSet) :
      GovReachableAny gs → GovReachableAny (GovernanceSet.Merge gs change)
  | importSet (gs src : GovernanceSet) :
      GovReachableAny gs → GovReachableAny (GovernanceSet.Import gs src)

/-- Sets reachable from the empty set through the write operations, where every map
handed to `Merge` or `Import` is itself well-typed for the registry (the amendment C5
needs: those two operations perform no validation of their own). -/
inductive GovReachable : GovernanceSet → Prop where
  | empty : GovReachable []
  | setValue (gs : GovernanceSet) (id : Nat) (v : GoValue) :
      GovReachable gs → GovReachable (GovernanceSet.SetValue gs id v).1
  | clear (gs : GovernanceSet) :
      GovReachable gs → GovReachable (GovernanceSet.Clear gs)
  | removeItem (gs : GovernanceSet) (k : String) :
      GovReachable gs → GovReachable (GovernanceSet.RemoveItem gs k)
  | merge (gs change : GovernanceSet) :
      GovReachable gs → WellTyped change → GovReachable (GovernanceSet.Merge gs change)
  | importSet (gs src : GovernanceSet) :
      GovReachable gs → WellTyped src → GovReachable (GovernanceSet.Import gs src)

end Klaytn

namespace Klaytn

/-! ## Vote ledger (part_000 lines 143-147 and 369-425) -/

/-- Embeds `VoteStatus` (part_000 lines 143-147). -/
structure VoteStatus where
  value : GoValue
  casted : Bool
  num : Nat
deriving DecidableEq

/-- The `voteMap` field of `Governance`: pending/casted votes keyed by canonical key. -/
abbrev VoteMap := List (String × VoteStatus)

/-- ASCII lowering of one character, as `strings.ToLower` acts on the ASCII key
strings of this subsystem. -/
def lowerChar (c : Char) : Char :=
  if 65 ≤ c.toNat ∧ c.toNat ≤ 90 then Char.ofNat (c.toNat + 32) else c

/-- Drop leading and trailing space characters, as `strings.Trim(s, " ")`. -/
def trimSpaceList (l : List Char) : List Char :=
  ((l.dropWhile (fun c => c == ' ')).reverse.dropWhile (fun c => c == ' ')).reverse

/-- Embeds `Governance.getKey(k string)`: `strings.Trim(strings.ToLower(k), " ")`. -/
def Governance.getKey (k : String) : String :=
  ⟨trimSpaceList (k.data.map lowerChar)⟩

/-- Embeds `Governance.RemoveVote(key string, value interface{}, number uint64)`
restricted to its effect on the vote map: normalize the key with `getKey`; if the stored
`voteMap[key].Value` equals `value`, overwrite the entry with
`VoteStatus{Value: value, Casted: true, Num: number}`. A missing Go entry reads as the
zero `VoteStatus` whose nil `Value` equals no modelled value, so no entry is created.
The checkpoint write the source then attempts (`CanWriteGovernanceState` /
`WriteGovernanceState`) touches persistence, not the vote map. -/
def Governance.RemoveVote (voteMap : VoteMap) (key : String) (value : GoValue)
    (number : Nat) : VoteMap :=
  let k := Governance.getKey key
  match lookupA voteMap k with
  | some st =>
      if st.value = value then setA voteMap k ⟨value, true, number⟩ else voteMap
  | none => voteMap

/-- Embeds `Governance.GetEncodedVote(addr, number)` restricted to vote selection: walk
the vote map, pick the first entry with `Casted == false` and return the serialized
`GovernanceVote{Validator: addr, Key: key, Value: val.Value}` — modelled as the triple
itself, RLP being an external injective codec. The source's encode-failure branch is not
modelled: the model's encoding is total (and in the source that branch only skips the
entry — the `RemoveVote(key, val, number)` it makes compares the stored value against a
whole `VoteStatus`, which never matches — so it emits nothing either). -/
def Governance.GetEncodedVote (addr : Address) (voteMap : VoteMap) :
    Option (Address × String × GoValue) :=
  (voteMap.find? (fun p => !p.2.casted)).map (fun p => (addr, p.1, p.2.value))

/-- Embeds `Governance.ClearVotes` restricted to the vote map:
`g.voteMap = make(map[string]VoteStatus)`. -/
def Governance.ClearVotes (_ : VoteMap) : VoteMap := []

/-- Modelled from the spec: `AddVote`, the operation by which "a decision to vote enters
Pending" (§4.2), is not in src/. It validates the key against the registry — unknown
keys are dropped (§4.2, §6) — and stores a pending `VoteStatus` under the canonical
trimmed lower-case key form that the source's `RemoveVote`/`getKey` use. -/
def Governance.AddVote (voteMap : VoteMap) (key : String) (value : GoValue) : VoteMap :=
  let k := Governance.getKey key
  if (lookupGovernanceKey k).isSome then setA voteMap k ⟨value, false, 0⟩ else voteMap

/-- Vote maps reachable from the empty map through the vote-ledger operations. -/
inductive VoteMapReachable : VoteMap → Prop where
  | empty : VoteMapReachable []
  | addVote (m : VoteMap) (k : String) (v : GoValue) :
      VoteMapReachable m → VoteMapReachable (Governance.AddVote m k v)
  | removeVote (m : VoteMap) (k : String) (v : GoValue) (n : Nat) :
      VoteMapReachable m → VoteMapReachable (Governance.RemoveVote m k v n)
  | clearVotes (m : VoteMap) :
      VoteMapReachable m → VoteMapReachable (Governance.ClearVotes m)

/-- Well-formedness of a vote map: keys are bound at most once (it models a Go map) and
every key is a registry key (hence in canonical form). -/
def VoteMapWF (m : VoteMap) : Prop :=
  (m.map Prod.fst).Nodup ∧ ∀ p ∈ m, (lookupGovernanceKey p.1).isSome

/-! ## Received-change re-typing and verification (part_000 lines 732-747 and 757-785) -/

/-- Embeds the body of `adjustDecodedSet`'s loop for one binding: floats (generic JSON
numbers) become `uint64`; for the governing-node key a string becomes an address via
`HexToAddress`, but — exactly as in the source — the non-string governing-node branch
writes back the ORIGINAL `v`, undoing the float conversion for that key. -/
def adjustValue (k : String) (v : GoValue) : GoValue :=
  let floatFixed := match v with
    | .vFloat n => .vUint64 n
    | other => other
  if (lookupGovernanceKey k).getD 0 = params.GoverningNode then
    match v with
    | .vString s => .vAddress (hexToAddress s)
    | _ => v
  else floatFixed

/-- Embeds `adjustDecodedSet(src map[string]interface{})`. -/
def adjustDecodedSet (src : GovernanceSet) : GovernanceSet :=
  src.map (fun p => (p.1, adjustValue p.1 p.2))

/-- Embeds the in-loop re-typing of `VerifyGovernance`: a string value under the
governing-node key is converted with `HexToAddress` before comparison. -/
def retypeReceived (k : String) (v : GoValue) : GoValue :=
  if (lookupGovernanceKey k).getD 0 = params.GoverningNode then
    match v with
    | .vString s => .vAddress (hexToAddress s)
    | other => other
  else v

/-- Embeds the comparison of one received binding against the local change set:
`have, _ := gov.changeSet.GetValue(GovernanceKeyMap[k]); have != v` — a missing local
value reads as nil, which equals no modelled value, and an unknown received key reads as
id 0 (Go's zero value). -/
def verifyMismatchAt (changeSet : GovernanceSet) (p : String × GoValue) : Bool :=
  GovernanceSet.GetValue changeSet ((lookupGovernanceKey p.1).getD 0)
    != some (retypeReceived p.1 p.2)

/-- Embeds `Governance.VerifyGovernance(received []byte)` after the external RLP and
JSON decoding stages (their failures return the decode errors before any comparison):
re-type the received set with `adjustDecodedSet`, and only when its size equals the
local change set's size compare key by key, returning `ErrVoteValueMismatch` at the
first difference; otherwise return nil. -/
def Governance.VerifyGovernance (changeSet : GovernanceSet) (received : GovernanceSet) :
    Option GovError :=
  let rChangeSet := adjustDecodedSet received
  if GovernanceSet.Size rChangeSet = GovernanceSet.Size changeSet then
    (rChangeSet.find? (verifyMismatchAt changeSet)).map
      (fun _ => GovError.ErrVoteValueMismatch)
  else none

/-! ## Snapshot cache (part_000 lines 592-613) -/

/-- The two cache fields of `Governance`: the LRU item cache (modelled as a map without
its eviction policy, which no claim touches) and the index of change-block numbers. -/
structure CacheState where
  itemCache : List (String × GovernanceSet)
  idxCache : List Nat
deriving DecidableEq

/-- Embeds `getGovernanceCacheKey(num uint64)`:
`GovernanceCacheKey(params.GovernanceCachePrefix + "_" + fmt.Sprintf("%v", num))`. -/
def getGovernanceCacheKey (num : Nat) : String :=
  params.GovernanceCachePfx ++ "_" ++ toString num

/-- Embeds `Governance.addIdxCache(num uint64)`: append `num`, then keep only the last
`params.GovernanceIdxCacheLimit` entries. -/
def Governance.addIdxCache (st : CacheState) (num : Nat) : CacheState :=
  let idx := st.idxCache ++ [num]
  { st with idxCache :=
      if idx.length > params.GovernanceIdxCacheLimit then
        idx.drop (idx.length - params.GovernanceIdxCacheLimit)
      else idx }

/-- Embeds `Governance.addGovernanceCache(num uint64, data GovernanceSet)`: return
unchanged when the index is non-empty and `num` does not exceed its last entry;
otherwise add `data.Items()` under the cache key and append `num` to the index. -/
def Governance.addGovernanceCache (st : CacheState) (num : Nat) (data : GovernanceSet) :
    CacheState :=
  if st.idxCache ≠ [] ∧ num ≤ st.idxCache.getLastD 0 then st
  else
    let cKey := getGovernanceCacheKey num
    Governance.addIdxCache
      { st with itemCache := setA st.itemCache cKey (GovernanceSet.Items data) } num

/-! ## StakingInfo (stakingInfo.go lines 30-118) -/

/-- Embeds the constants of stakingInfo.go lines 30-34. -/
def maxStakingLimit : Nat := 100000000000

/-- Embeds `DefaultGiniCoefficient = -1.0`, the "not computed" sentinel. -/
def DefaultGiniCoefficient : ℚ := -1

/-- Embeds `StakingInfo` (stakingInfo.go lines 43-58). -/
structure StakingInfo where
  blockNum : Nat
  councilNodeAddrs : List Address
  councilStakingAddrs : List Address
  councilRewardAddrs : List Address
  kirAddr : Address
  pocAddr : Address
  useGini : Bool
  gini : ℚ
  councilStakingAmounts : List Nat

/-- Embeds the success path of `newStakingInfo` (stakingInfo.go lines 75-118). The
blockchain and state database are external collaborators, abstracted into `balanceOf`
(the state's `GetBalance` at the interval block, an arbitrary-precision nonnegative
integer), and the governance read of `UseGiniCoeff` into `useGini`; the error paths
(missing block, state error, governance error) return before any of the computation
modelled here. For each staking address the balance is divided by `params.KLAY`
(`big.Int` floor division) and clamped to `maxStakingLimit`; the clamped value fits
`uint64`, so `tempStakingAmount.Uint64()` is exact. -/
def newStakingInfo (blockNum : Nat) (nodeIds stakingAddrs rewardAddrs : List Address)
    (kirAddr pocAddr : Address) (balanceOf : Address → Nat) (useGini : Bool) :
    StakingInfo :=
  let stakingAmounts := stakingAddrs.map (fun stakingAddr =>
    let tempStakingAmount := balanceOf stakingAddr / params.KLAY
    if tempStakingAmount > maxStakingLimit then maxStakingLimit else tempStakingAmount)
  { blockNum := blockNum
    councilNodeAddrs := nodeIds
    councilStakingAddrs := stakingAddrs
    councilRewardAddrs := rewardAddrs
    kirAddr := kirAddr
    pocAddr := pocAddr
    useGini := useGini
    gini := DefaultGiniCoefficient
    councilStakingAmounts := stakingAmounts }

/-! ## Helper lemmas about the association-list map model -/

/-- Reading the key just written returns the written value. -/
theorem lookupA_setA_self {β : Type} (m : List (String × β)) (k : String) (v : β) :
    lookupA (setA m k v) k = some v := by
  simp [lookupA, setA, List.find?]

/-- Filtering away bindings of `k` does not change lookups of other keys. -/
theorem find?_filter_ne {β : Type} (m : List (String × β)) (k k' : String) (h : k' ≠ k) :
    (m.filter (fun p => p.1 != k)).find? (fun p => p.1 == k') =
      m.find? (fun p => p.1 == k') := by
  induction m with
  | nil => rfl
  | cons p rest ih =>
    by_cases hpk : p.1 = k
    · have h1 : (p.1 != k) = false := by simp [hpk]
      have h2 : (p.1 == k') = false := by simp [hpk, Ne.symm h]
      simp only [List.filter_cons, h1, Bool.false_eq_true, if_false, List.find?_cons, h2, ih]
    · have h1 : (p.1 != k) = true := by simp [hpk]
      simp only [List.filter_cons, h1, if_true, List.find?_cons]
      cases hpk' : (p.1 == k') with
      | true => rfl
      | false => exact ih

/-- Writing one key does not change lookups of other keys. -/
theorem lookupA_setA_ne {β : Type} (m : List (String × β)) (k k' : String) (v : β)
    (h : k' ≠ k) : lookupA (setA m k v) k' = lookupA m k' := by
  have hk : (k == k') = false := by simp [Ne.symm h]
  simp only [lookupA, setA, List.find?_cons, hk, find?_filter_ne m k k' h]

/-- Membership after a map write: the new binding, or an old binding of another key. -/
theorem mem_setA {β : Type} {m : List (String × β)} {k : String} {v : β}
    {p : String × β} (h : p ∈ setA m k v) : p = (k, v) ∨ (p ∈ m ∧ p.1 ≠ k) := by
  simp only [setA, List.mem_cons, List.mem_filter, bne_iff_ne] at h
  tauto

/-- A successful lookup exposes a member with that key and value. -/
theorem lookupA_mem {β : Type} {m : List (String × β)} {k : String} {v : β}
    (h : lookupA m k = some v) : (k, v) ∈ m := by
  simp only [lookupA, Option.map_eq_some'] at h
  obtain ⟨p, hp, hv⟩ := h
  have hmem := List.mem_of_find?_eq_some hp
  have hkey := List.find?_some hp
  simp only [beq_iff_eq] at hkey
  have : p = (k, v) := by
    cases p
    simp only at hkey hv
    simp [hkey, hv]
  exact this ▸ hmem

/-- With no duplicate keys, every member is found by lookup. -/
theorem lookupA_eq_some_of_mem {β : Type} {m : List (String × β)}
    (hnd : (m.map Prod.fst).Nodup) {p : String × β} (hp : p ∈ m) :
    lookupA m p.1 = some p.2 := by
  induction m with
  | nil => cases hp
  | cons q rest ih =>
    simp only [List.map_cons, List.nodup_cons] at hnd
    rcases List.mem_cons.mp hp with h | h
    · subst h
      simp [lookupA, List.find?_cons]
    · by_cases hk : p.1 = q.1
      · exact absurd (hk ▸ List.mem_map_of_mem Prod.fst h) hnd.1
      · have : (q.1 == p.1) = false := by simp [Ne.symm hk]
        simp only [lookupA, List.find?_cons, this]
        exact ih hnd.2 h

/-- Writing preserves key uniqueness. -/
theorem nodup_setA {β : Type} {m : List (String × β)} (k : String) (v : β)
    (hnd : (m.map Prod.fst).Nodup) : ((setA m k v).map Prod.fst).Nodup := by
  simp only [setA, List.map_cons, List.nodup_cons]
  constructor
  · intro hmem
    obtain ⟨p, hp, hpk⟩ := List.mem_map.mp hmem
    have := (List.mem_filter.mp hp).2
    simp only [bne_iff_ne] at this
    exact this hpk
  · exact List.Nodup.sublist ((List.filter_sublist m).map Prod.fst) hnd

end Klaytn

namespace Klaytn

/-! ## Theorems: C1 and C2 (`CalcGovernanceInfoBlock`) -/

/-- C1 (counterexample). The claim asserts that with epoch 50 the function maps
n = 10050 to 9950; the code maps it to 10000 (one epoch, not two, below the
epoch-floor 10050). -/
theorem calcGovernanceInfoBlock_c1_counterexample :
    CalcGovernanceInfoBlock 10050 50 = 10000 ∧ CalcGovernanceInfoBlock 10050 50 ≠ 9950 := by
  decide

/-- C1 (amended). For every block number n and epoch > 0, `CalcGovernanceInfoBlock(n, epoch)`
returns `f` computed as `f = n - (n mod epoch)`, then `f = f - epoch` if `f ≥ epoch`;
in particular, with epoch 100 it maps n = 99 to 0, n = 100 to 0, n = 200 to 100,
n = 250 to 100, and with epoch 50 it maps n = 10050 to 10000 (the claim's value 9950
is corrected to 10000). -/
theorem calcGovernanceInfoBlock_c1_amended :
    (∀ n epoch : Nat, 0 < epoch →
        CalcGovernanceInfoBlock n epoch = calcGovernanceInfoBlockSpecFormula n epoch)
    ∧ CalcGovernanceInfoBlock 99 100 = 0
    ∧ CalcGovernanceInfoBlock 100 100 = 0
    ∧ CalcGovernanceInfoBlock 200 100 = 100
    ∧ CalcGovernanceInfoBlock 250 100 = 100
    ∧ CalcGovernanceInfoBlock 10050 50 = 10000 := by
  refine ⟨fun n epoch _ => rfl, by decide, by decide, by decide, by decide, by decide⟩

/-- C1 (witness). The formula part of the amended claim, instantiated at n = 250,
epoch = 100, with the positivity hypothesis discharged concretely. -/
theorem calcGovernanceInfoBlock_c1_witness :
    0 < 100 ∧ CalcGovernanceInfoBlock 250 100 = calcGovernanceInfoBlockSpecFormula 250 100 :=
  ⟨by decide, calcGovernanceInfoBlock_c1_amended.1 250 100 (by decide)⟩

/-- C2 (counterexample). The claim asserts the result is the start of the epoch two
epochs back, `(n / epoch - 2) * epoch`, whenever `n / epoch ≥ 2`; at n = 200 and
epoch = 100 the code returns 100 while the claimed value is 0. -/
theorem calcGovernanceInfoBlock_c2_counterexample :
    (2 : Nat) ≤ 200 / 100
    ∧ CalcGovernanceInfoBlock 200 100 = 100
    ∧ CalcGovernanceInfoBlock 200 100 ≠ (200 / 100 - 2) * 100 := by
  decide

/-- C2 (amended). For every block number n and epoch > 0, `CalcGovernanceInfoBlock(n, epoch)`
returns the first block of the epoch ONE epoch back from the epoch containing n, that is
`(n / epoch - 1) * epoch` whenever `n / epoch ≥ 1`, except that for every n inside the
first epoch (`n < epoch`) it returns 0. -/
theorem calcGovernanceInfoBlock_c2_amended (n epoch : Nat) (hepoch : 0 < epoch) :
    (n < epoch → CalcGovernanceInfoBlock n epoch = 0)
    ∧ (epoch ≤ n → CalcGovernanceInfoBlock n epoch = (n / epoch - 1) * epoch) := by
  constructor
  · intro hn
    have hmod : n % epoch = n := Nat.mod_eq_of_lt hn
    simp only [CalcGovernanceInfoBlock, hmod, Nat.sub_self]
    simp [Nat.not_le.mpr hepoch]
  · intro hn
    have hq : 1 ≤ n / epoch := (Nat.one_le_div_iff hepoch).mpr hn
    have hfloor : n - n % epoch = epoch * (n / epoch) :=
      Nat.sub_eq_of_eq_add (Nat.div_add_mod n epoch).symm
    have hge : epoch ≤ epoch * (n / epoch) := Nat.le_mul_of_pos_right epoch hq
    simp only [CalcGovernanceInfoBlock, hfloor, hge, if_pos]
    rw [Nat.mul_comm, ← Nat.sub_one_mul]

/-- C2 (witness). The amended claim instantiated at n = 250, epoch = 100: the result is
`(250 / 100 - 1) * 100 = 100`, with all hypotheses discharged concretely. -/
theorem calcGovernanceInfoBlock_c2_witness :
    (100 : Nat) ≤ 250 ∧ CalcGovernanceInfoBlock 250 100 = (250 / 100 - 1) * 100 :=
  ⟨by decide, (calcGovernanceInfoBlock_c2_amended 250 100 (by decide)).2 (by decide)⟩

/-! ## Theorems: C3 (`CalcGiniCoefficient`) -/

/-- The source's accumulation loop agrees with the indexed fold used in the spec-worded
definition, for every starting index and accumulator pair. -/
theorem giniLoop_eq_foldl_enumFrom (l : List Nat) : ∀ i s1 s2 : Nat,
    giniLoop l i s1 s2 =
      (l.enumFrom i).foldl
        (fun acc p => (u64add acc.1 (u64sub (u64mul p.2 p.1) acc.2), u64add acc.2 p.2))
        (s1, s2) := by
  induction l with
  | nil => intro i s1 s2; rfl
  | cons x rest ih => intro i s1 s2; simp only [giniLoop, List.enumFrom, List.foldl_cons, ih]

/-- C3. `CalcGiniCoefficient` sorts ascending, accumulates exactly as the claim states
(shown by agreement with the spec-worded definition on every input), and in particular
returns 0 for `[100]`, 0 for `[1,1,1,1]` and 0.75 for `[0,0,0,100]`. -/
theorem calcGiniCoefficient_c3 :
    (∀ l : List Nat, CalcGiniCoefficient l = giniSpecDescription l)
    ∧ CalcGiniCoefficient [100] = 0
    ∧ CalcGiniCoefficient [1, 1, 1, 1] = 0
    ∧ CalcGiniCoefficient [0, 0, 0, 100] = 3 / 4 := by
  refine ⟨fun l => ?_,
    by norm_num [CalcGiniCoefficient, sortAsc, insertSorted, giniLoop,
      u64add, u64sub, u64mul, U64, round_eq],
    by norm_num [CalcGiniCoefficient, sortAsc, insertSorted, giniLoop,
      u64add, u64sub, u64mul, U64, round_eq],
    by norm_num [CalcGiniCoefficient, sortAsc, insertSorted, giniLoop,
      u64add, u64sub, u64mul, U64, round_eq]⟩
  simp only [CalcGiniCoefficient, giniSpecDescription, List.enum,
    giniLoop_eq_foldl_enumFrom]

/-! ## Registry cross-reference lemmas -/

/-- A successful required-type lookup exposes a registry row. -/
theorem governanceItemType_some_mem {id : Nat} {t : GoType}
    (h : governanceItemType id = some t) : (id, t) ∈ GovernanceItems := by
  simp only [governanceItemType, Option.map_eq_some'] at h
  obtain ⟨e, he, ht⟩ := h
  have hmem := List.mem_of_find?_eq_some he
  have hkey := List.find?_some he
  simp only [beq_iff_eq] at hkey
  have : e = (id, t) := by
    cases e
    simp only at hkey ht
    simp [hkey, ht]
  exact this ▸ hmem

/-- Every id with a required type has a canonical name in the reverse map, and that
name maps back to the id in the forward map (checked row by row over the tables). -/
theorem registry_crossref : ∀ e ∈ GovernanceItems,
    lookupGovernanceKeyReverse e.1 = some ((lookupGovernanceKeyReverse e.1).getD "")
    ∧ lookupGovernanceKey ((lookupGovernanceKeyReverse e.1).getD "") = some e.1 := by
  decide

/-- A key present in the forward registry map is in canonical (trimmed, lower-case)
form (checked row by row). -/
theorem registry_keys_canonical_rows : ∀ e ∈ GovernanceKeyMap, Governance.getKey e.1 = e.1 := by
  decide

/-- A successful forward-registry lookup exposes a registry row. -/
theorem lookupGovernanceKey_isSome_mem {k : String}
    (h : (lookupGovernanceKey k).isSome) : ∃ e ∈ GovernanceKeyMap, e.1 = k := by
  simp only [lookupGovernanceKey, Option.isSome_map'] at h
  obtain ⟨e, he⟩ := Option.isSome_iff_exists.mp h
  have hmem := List.mem_of_find?_eq_some he
  have hkey := List.find?_some he
  simp only [beq_iff_eq] at hkey
  exact ⟨e, hmem, hkey⟩

/-- Any string the forward registry map recognises is already in canonical form. -/
theorem registry_key_canonical {k : String} (h : (lookupGovernanceKey k).isSome) :
    Governance.getKey k = k := by
  obtain ⟨e, hmem, hk⟩ := lookupGovernanceKey_isSome_mem h
  exact hk ▸ registry_keys_canonical_rows e hmem

/-! ## Theorems: C4 (`SetValue` / `GetValue` typing and round-trip) -/

/-- C4. For every registry parameter (an id with a required type t) and value v: on a
dynamic-type mismatch `SetValue` returns `ErrValueTypeMismatch` and leaves the set
unchanged; on a match it succeeds, replaces the entry under the parameter's canonical
name, and `GetValue` then returns exactly that value. -/
theorem governanceSet_setValue_c4 (gs : GovernanceSet) (itemType : Nat) (value : GoValue)
    (t : GoType) (hreg : governanceItemType itemType = some t) :
    (typeOf value ≠ t →
        GovernanceSet.SetValue gs itemType value = (gs, some GovError.ErrValueTypeMismatch))
    ∧ (typeOf value = t →
        (GovernanceSet.SetValue gs itemType value).2 = none
        ∧ ∃ name, lookupGovernanceKeyReverse itemType = some name
            ∧ (GovernanceSet.SetValue gs itemType value).1 = setA gs name value
            ∧ GovernanceSet.GetValue (GovernanceSet.SetValue gs itemType value).1 itemType
                = some value) := by
  constructor
  · intro hne
    have hcond : ¬ governanceItemType itemType = some (typeOf value) := by
      rw [hreg]
      simp [Ne.symm hne]
    simp [GovernanceSet.SetValue, hcond]
  · intro heq
    have hcond : governanceItemType itemType = some (typeOf value) := by rw [hreg, heq]
    obtain ⟨hrev, -⟩ := registry_crossref _ (governanceItemType_some_mem hreg)
    generalize hname : (lookupGovernanceKeyReverse itemType).getD "" = name at hrev
    refine ⟨by simp [GovernanceSet.SetValue, hcond], name, hrev, ?_, ?_⟩
    · simp [GovernanceSet.SetValue, hcond, hrev]
    · simp [GovernanceSet.SetValue, hcond, GovernanceSet.GetValue, hrev, lookupA_setA_self]

/-- C4 (witness). The round-trip at the concrete registry parameter `istanbul.epoch`
(id `params.Epoch`, required type uint64) and value 604800. -/
theorem governanceSet_setValue_c4_witness :
    GovernanceSet.GetValue
        (GovernanceSet.SetValue [] params.Epoch (GoValue.vUint64 604800)).1 params.Epoch
      = some (GoValue.vUint64 604800) := by
  obtain ⟨-, name, -, -, hget⟩ :=
    (governanceSet_setValue_c4 [] params.Epoch (GoValue.vUint64 604800) GoType.tUint64
      (by decide)).2 (by decide)
  exact hget

/-! ## Theorems: C5 (`GovernanceSet` typing invariant) -/

/-- Writing a well-typed binding into a well-typed set keeps it well-typed. -/
theorem wellTyped_setA (gs : GovernanceSet) (k : String) (v : GoValue)
    (hgs : WellTyped gs) (hkv : WellTypedEntry (k, v)) : WellTyped (setA gs k v) := by
  intro p hp
  rcases mem_setA hp with h | ⟨h, -⟩
  · rw [h]
    exact hkv
  · exact hgs p h

/-- Folding a well-typed batch of bindings into a well-typed accumulator (the shape of
both `Merge` and `Import`) keeps it well-typed. -/
theorem wellTyped_foldl_setA (src : List (String × GoValue)) :
    ∀ acc, WellTyped acc → WellTyped src →
      WellTyped (src.foldl (fun a p => setA a p.1 p.2) acc) := by
  induction src with
  | nil => exact fun acc h _ => h
  | cons q rest ih =>
    intro acc hacc hsrc
    simp only [List.foldl_cons]
    exact ih _ (wellTyped_setA _ _ _ hacc (hsrc q (List.mem_cons_self q rest)))
      (fun p hp => hsrc p (List.mem_cons_of_mem q hp))

/-- `SetValue` keeps the set well-typed: it either rejects or stores a binding that is
well-typed by the registry cross-reference. -/
theorem wellTyped_setValue (gs : GovernanceSet) (id : Nat) (v : GoValue)
    (hgs : WellTyped gs) : WellTyped (GovernanceSet.SetValue gs id v).1 := by
  by_cases hcond : governanceItemType id = some (typeOf v)
  · obtain ⟨hrev, hfwd⟩ := registry_crossref _ (governanceItemType_some_mem hcond)
    have hkv : WellTypedEntry ((lookupGovernanceKeyReverse id).getD "", v) := by
      simp only [WellTypedEntry, hfwd, Option.some_bind]
      exact hcond
    simp only [GovernanceSet.SetValue, hcond, if_pos]
    exact wellTyped_setA gs _ v hgs hkv
  · simp only [GovernanceSet.SetValue, hcond, if_neg, not_false_iff]
    exact hgs

/-- C5 (counterexample). The claim quantifies over sets reachable through `SetValue`,
`Merge`, `Import`, `Clear` and `RemoveItem` with no restriction; merging a binding whose
key is not in the registry reaches a set that stores a non-registry key, because `Merge`
performs no validation. -/
theorem govSet_invariant_c5_counterexample :
    GovReachableAny [("bogus.key", GoValue.vBool true)]
    ∧ ¬ WellTyped [("bogus.key", GoValue.vBool true)] := by
  constructor
  · have h1 := GovReachableAny.merge [] [("bogus.key", GoValue.vBool true)]
      GovReachableAny.empty
    simpa [GovernanceSet.Merge, setA] using h1
  · intro h
    have := h ("bogus.key", GoValue.vBool true) (by simp)
    simp [WellTypedEntry, lookupGovernanceKey, GovernanceKeyMap, List.find?] at this

/-- C5 (amended). In every `GovernanceSet` reachable from the empty set through the
write operations, provided every map handed to `Merge` or `Import` is itself well-typed
for the registry (those two operations validate nothing of their own), every stored key
is a registry key and every stored value has the registry's required type; and every
`SetValue` write of a mismatched-type value is rejected, leaving any set unchanged. -/
theorem govSet_invariant_c5_amended (gs : GovernanceSet) (h : GovReachable gs) :
    WellTyped gs
    ∧ ∀ (gs' : GovernanceSet) (id : Nat) (v : GoValue),
        ¬ governanceItemType id = some (typeOf v) →
        GovernanceSet.SetValue gs' id v = (gs', some GovError.ErrValueTypeMismatch) := by
  constructor
  · induction h with
    | empty => exact fun p hp => absurd hp (List.not_mem_nil p)
    | setValue gs id v _ ih => exact wellTyped_setValue gs id v ih
    | clear gs _ _ => exact fun p hp => absurd hp (List.not_mem_nil p)
    | removeItem gs k _ ih => exact fun p hp => ih p (List.mem_of_mem_filter hp)
    | merge gs change _ hch ih => exact wellTyped_foldl_setA change gs ih hch
    | importSet gs src _ hsrc _ =>
        exact wellTyped_foldl_setA src []
          (fun p hp => absurd hp (List.not_mem_nil p)) hsrc
  · intro gs' id v hcond
    simp [GovernanceSet.SetValue, hcond]

/-- C5 (witness). The amended invariant at a concrete reachable set: after one
successful `SetValue` of `istanbul.epoch`, every stored entry is registry-typed. -/
theorem govSet_invariant_c5_witness :
    WellTyped (GovernanceSet.SetValue [] params.Epoch (GoValue.vUint64 604800)).1 :=
  (govSet_invariant_c5_amended _
    (GovReachable.setValue [] params.Epoch (GoValue.vUint64 604800) GovReachable.empty)).1

/-! ## Theorems: C8 (`addGovernanceCache` monotonic guard) -/

/-- C8. Whenever the snapshot index is non-empty and num does not exceed its last
(greatest) indexed block number, `addGovernanceCache` changes neither the index cache
nor the value cache. -/
theorem addGovernanceCache_c8 (st : CacheState) (num : Nat) (data : GovernanceSet)
    (h1 : st.idxCache ≠ []) (h2 : num ≤ st.idxCache.getLastD 0) :
    (Governance.addGovernanceCache st num data).idxCache = st.idxCache
    ∧ (Governance.addGovernanceCache st num data).itemCache = st.itemCache := by
  unfold Governance.addGovernanceCache
  rw [if_pos (And.intro h1 h2)]
  exact ⟨rfl, rfl⟩

/-- C8 (witness). The guard at a concrete state: index `[5, 7]`, num 6. -/
theorem addGovernanceCache_c8_witness :
    (Governance.addGovernanceCache ⟨[("governance_5", [])], [5, 7]⟩ 6 []).idxCache
        = ([5, 7] : List Nat)
    ∧ (Governance.addGovernanceCache ⟨[("governance_5", [])], [5, 7]⟩ 6 []).itemCache
        = [("governance_5", ([] : GovernanceSet))] :=
  addGovernanceCache_c8 ⟨[("governance_5", [])], [5, 7]⟩ 6 [] (by decide) (by decide)

/-! ## Theorems: C9 (`newStakingInfo` conversion and clamp) -/

/-- C9. In `newStakingInfo`, the stored staking amounts are index-aligned with the
staking address list, and the amount for each address is its balance divided by the
KLAY unit, stored unchanged when at or below 100,000,000,000 and clamped to exactly
100,000,000,000 when above. -/
theorem newStakingInfo_c9 (blockNum : Nat) (nodeIds stakingAddrs rewardAddrs : List Address)
    (kirAddr pocAddr : Address) (balanceOf : Address → Nat) (useGini : Bool) :
    (newStakingInfo blockNum nodeIds stakingAddrs rewardAddrs kirAddr pocAddr balanceOf
        useGini).councilStakingAmounts.length = stakingAddrs.length
    ∧ ∀ (i : Nat) (a : Address), stakingAddrs[i]? = some a →
        (newStakingInfo blockNum nodeIds stakingAddrs rewardAddrs kirAddr pocAddr balanceOf
            useGini).councilStakingAmounts[i]? =
          some (if balanceOf a / params.KLAY > maxStakingLimit then maxStakingLimit
            else balanceOf a / params.KLAY) := by
  refine ⟨List.length_map _ _, fun i a ha => ?_⟩
  simp [newStakingInfo, List.getElem?_map, ha]

/-- C9 (witness). One staking address whose balance, 100000000005 KLAY in base units,
converts to 100000000005 native units and is clamped to exactly 100000000000. -/
theorem newStakingInfo_c9_witness :
    (newStakingInfo 0 [] [⟨"0xa"⟩] [] ⟨""⟩ ⟨""⟩
        (fun _ => 100000000005000000000000000000) false).councilStakingAmounts[0]?
      = some 100000000000 := by
  have h := (newStakingInfo_c9 0 [] [⟨"0xa"⟩] [] ⟨""⟩ ⟨""⟩
    (fun _ => 100000000005000000000000000000) false).2 0 ⟨"0xa"⟩ rfl
  rw [h]
  norm_num [params.KLAY, maxStakingLimit]

/-! ## Theorems: C10 (`RemoveVote` conditional marking) -/

/-- C10. `RemoveVote(key, value, num)` marks the entry under the trimmed lower-cased key
as casted at num exactly when the stored value equals the given value; when the stored
value differs, or no entry exists, the vote map is unchanged. -/
theorem removeVote_c10 (m : VoteMap) (key : String) (value : GoValue) (number : Nat) :
    ((∃ st, lookupA m (Governance.getKey key) = some st ∧ st.value = value) →
        Governance.RemoveVote m key value number
          = setA m (Governance.getKey key) ⟨value, true, number⟩)
    ∧ (lookupA m (Governance.getKey key) = none →
        Governance.RemoveVote m key value number = m)
    ∧ (∀ st, lookupA m (Governance.getKey key) = some st → st.value ≠ value →
        Governance.RemoveVote m key value number = m) := by
  refine ⟨?_, ?_, ?_⟩
  · rintro ⟨st, hst, hv⟩
    simp [Governance.RemoveVote, hst, hv]
  · intro h
    simp [Governance.RemoveVote, h]
  · intro st hst hne
    simp [Governance.RemoveVote, hst, hne]

/-! ## Theorems: C6 (a removed vote is never re-emitted) -/

/-- Every reachable vote map is well-formed: keys are unique and all keys are registry
keys (the modelled `AddVote` validates against the registry, `RemoveVote` only rewrites
an existing entry under its canonical key, `ClearVotes` empties the map). -/
theorem voteMapReachable_wf : ∀ m, VoteMapReachable m → VoteMapWF m := by
  intro m h
  induction h with
  | empty => exact ⟨List.nodup_nil, fun p hp => absurd hp (List.not_mem_nil p)⟩
  | addVote m k v _ ih =>
    simp only [Governance.AddVote]
    cases hreg : (lookupGovernanceKey (Governance.getKey k)).isSome with
    | false => simpa [hreg] using ih
    | true =>
      simp only [hreg, if_true]
      refine ⟨nodup_setA _ _ ih.1, fun p hp => ?_⟩
      rcases mem_setA hp with h | ⟨h, -⟩
      · rw [h]
        exact hreg
      · exact ih.2 p h
  | removeVote m k v n _ ih =>
    simp only [Governance.RemoveVote]
    cases hl : lookupA m (Governance.getKey k) with
    | none => exact ih
    | some st =>
      by_cases hv : st.value = v
      · simp only [hv, if_pos]
        refine ⟨nodup_setA _ _ ih.1, fun p hp => ?_⟩
        rcases mem_setA hp with h | ⟨h, -⟩
        · rw [h]
          exact ih.2 (Governance.getKey k, st) (lookupA_mem hl)
        · exact ih.2 p h
      · simpa [hv] using ih
  | clearVotes m _ _ => exact ⟨List.nodup_nil, fun p hp => absurd hp (List.not_mem_nil p)⟩

/-- After `RemoveVote(key, value, n)` on a well-formed vote map, no entry carrying
exactly that (key, value) pair is still pending — so no iteration order can re-emit
it. -/
theorem removeVote_no_eligible_pair (m : VoteMap) (hwf : VoteMapWF m) (key : String)
    (value : GoValue) (n : Nat) :
    ∀ p ∈ Governance.RemoveVote m key value n,
      p.1 = key → p.2.value = value → p.2.casted = true := by
  intro p hp hkey hval
  simp only [Governance.RemoveVote] at hp
  cases hl : lookupA m (Governance.getKey key) with
  | none =>
    simp only [hl] at hp
    have hcan : Governance.getKey p.1 = p.1 := registry_key_canonical (hwf.2 p hp)
    have hkk : Governance.getKey key = key := by rw [← hkey]; exact hcan
    have hlook := lookupA_eq_some_of_mem hwf.1 hp
    rw [hkey] at hlook
    rw [hkk, hlook] at hl
    cases hl
  | some st =>
    simp only [hl] at hp
    by_cases hv : st.value = value
    · simp only [hv, if_pos] at hp
      rcases mem_setA hp with h | ⟨hmem, hne⟩
      · rw [h]
      · have hcan : Governance.getKey p.1 = p.1 := registry_key_canonical (hwf.2 p hmem)
        have hkk : Governance.getKey key = key := by rw [← hkey]; exact hcan
        exact absurd (hkey.trans hkk.symm) hne
    · simp only [hv, if_neg, not_false_iff] at hp
      have hcan : Governance.getKey p.1 = p.1 := registry_key_canonical (hwf.2 p hp)
      have hkk : Governance.getKey key = key := by rw [← hkey]; exact hcan
      have hlook := lookupA_eq_some_of_mem hwf.1 hp
      rw [hkey] at hlook
      rw [hkk, hlook] at hl
      have hps : p.2 = st := by injection hl
      rw [← hps, hval] at hv
      exact absurd rfl hv

/-- C6. On every reachable vote map, after `RemoveVote(key, value, n)` no call of
`GetEncodedVote` returns an encoding of that exact (key, value) pair — the statement
quantifies over every still-pending entry, so it is independent of Go's map iteration
order — while the entries of all other keys (the pending not-yet-casted votes among
them) are exactly as before. -/
theorem removeVote_c6 (m : VoteMap) (hm : VoteMapReachable m) (key : String)
    (value : GoValue) (n : Nat) :
    (∀ (addr : Address) (r : Address × String × GoValue),
        Governance.GetEncodedVote addr (Governance.RemoveVote m key value n) = some r →
        ¬(r.2.1 = key ∧ r.2.2 = value))
    ∧ (∀ k, k ≠ Governance.getKey key →
        lookupA (Governance.RemoveVote m key value n) k = lookupA m k) := by
  have hwf := voteMapReachable_wf m hm
  constructor
  · rintro addr r hr ⟨hrk, hrv⟩
    simp only [Governance.GetEncodedVote, Option.map_eq_some'] at hr
    obtain ⟨p, hp, hrp⟩ := hr
    have hpmem := List.mem_of_find?_eq_some hp
    have hpc := List.find?_some hp
    simp only [Bool.not_eq_true'] at hpc
    rw [← hrp] at hrk hrv
    have := removeVote_no_eligible_pair m hwf key value n p hpmem hrk hrv
    rw [this] at hpc
    cases hpc
  · intro k hk
    simp only [Governance.RemoveVote]
    cases hl : lookupA m (Governance.getKey key) with
    | none => rfl
    | some st =>
      by_cases hv : st.value = value
      · simp only [hv, if_pos]
        exact lookupA_setA_ne m _ k _ hk
      · simp [hv]

/-- C6 (witness). On the concrete reachable map holding pending votes for
`istanbul.epoch` and `governance.unitprice`, removing the `istanbul.epoch` vote leaves
the pending `governance.unitprice` entry untouched. -/
theorem removeVote_c6_witness :
    lookupA
        (Governance.RemoveVote
          (Governance.AddVote (Governance.AddVote [] "istanbul.epoch" (GoValue.vUint64 30))
            "governance.unitprice" (GoValue.vUint64 25))
          "istanbul.epoch" (GoValue.vUint64 30) 5)
        "governance.unitprice"
      = lookupA
          (Governance.AddVote (Governance.AddVote [] "istanbul.epoch" (GoValue.vUint64 30))
            "governance.unitprice" (GoValue.vUint64 25))
          "governance.unitprice" :=
  (removeVote_c6 _
      (VoteMapReachable.addVote _ "governance.unitprice" (GoValue.vUint64 25)
        (VoteMapReachable.addVote _ "istanbul.epoch" (GoValue.vUint64 30)
          VoteMapReachable.empty))
      "istanbul.epoch" (GoValue.vUint64 30) 5).2
    "governance.unitprice" (by decide)

/-! ## Theorems: C7 (`VerifyGovernance` size gate and mismatch error) -/

/-- C7. `VerifyGovernance` returns nil, performing no per-key comparison, whenever the
size of the decoded re-typed received set differs from the local change set's size;
when the sizes are equal and some received key's re-typed value differs from the local
change set's value under that key, it returns `ErrVoteValueMismatch`. -/
theorem verifyGovernance_c7 (changeSet received : GovernanceSet) :
    (GovernanceSet.Size (adjustDecodedSet received) ≠ GovernanceSet.Size changeSet →
        Governance.VerifyGovernance changeSet received = none)
    ∧ (GovernanceSet.Size (adjustDecodedSet received) = GovernanceSet.Size changeSet →
        (∃ p ∈ adjustDecodedSet received,
            GovernanceSet.GetValue changeSet ((lookupGovernanceKey p.1).getD 0)
              ≠ some (retypeReceived p.1 p.2)) →
        Governance.VerifyGovernance changeSet received
          = some GovError.ErrVoteValueMismatch) := by
  constructor
  · intro hne
    simp [Governance.VerifyGovernance, hne]
  · intro heq hex
    have hsome : ((adjustDecodedSet received).find? (verifyMismatchAt changeSet)).isSome := by
      rw [List.find?_isSome]
      obtain ⟨p, hp, hne⟩ := hex
      exact ⟨p, hp, by simpa [verifyMismatchAt, bne_iff_ne] using hne⟩
    obtain ⟨q, hq⟩ := Option.isSome_iff_exists.mp hsome
    simp [Governance.VerifyGovernance, heq, hq]

/-- C7 (witness). Equal sizes with one shared key whose re-typed received value (a JSON
float 50 re-typed to uint64 50) differs from the local value 25: the dedicated mismatch
error is returned. -/
theorem verifyGovernance_c7_witness :
    Governance.VerifyGovernance [("governance.unitprice", GoValue.vUint64 25)]
        [("governance.unitprice", GoValue.vFloat 50)]
      = some GovError.ErrVoteValueMismatch := by
  refine (verifyGovernance_c7 _ _).2 (by decide) ?_
  exact ⟨("governance.unitprice", GoValue.vUint64 50), by decide, by decide⟩

/-- C10 (witness). A pending vote for `istanbul.epoch` is marked casted at block 7 by a
`RemoveVote` whose key argument normalizes to it, with the matching stored value. -/
theorem removeVote_c10_witness :
    Governance.RemoveVote [("istanbul.epoch", ⟨GoValue.vUint64 30, false, 0⟩)]
        " Istanbul.Epoch" (GoValue.vUint64 30) 7
      = setA [("istanbul.epoch", ⟨GoValue.vUint64 30, false, 0⟩)]
          (Governance.getKey " Istanbul.Epoch") ⟨GoValue.vUint64 30, true, 7⟩ :=
  (removeVote_c10 [("istanbul.epoch", ⟨GoValue.vUint64 30, false, 0⟩)]
    " Istanbul.Epoch" (GoValue.vUint64 30) 7).1
    ⟨⟨GoValue.vUint64 30, false, 0⟩, by decide, rfl⟩

end Klaytn
